import Mathlib

/-!
Verification of the minicon vulnerability-ingestion pipeline (poc-loader.py).

The pipeline enriches raw scan findings, batches them, and writes each
dispatched batch to two sinks: a BigQuery archive (fire-and-forget, via a
thread pool) and an AlloyDB live-state table (synchronous upsert with a
conditional-status conflict rule).  The embedding below translates the
relevant functions of poc-loader.py into Lean:

  * `enrich_record`      : the enrichment step (lines 46-55);
  * `write_to_bq`        : the archive writer (lines 59-78), with the
                           possible outcomes of insert_rows_json abstracted
                           into an oracle `BqOutcome`;
  * `upsertOne` / `applyBatch` / `write_to_alloy`
                         : the state writer (lines 82-123); the upsert SQL
                           ON CONFLICT clause becomes `updateRow`, the
                           executemany/commit/rollback transaction becomes
                           `applyBatch` plus rollback in `write_to_alloy`,
                           with a per-record failure oracle standing for a
                           database error raised inside executemany;
  * `runLoop` / `run_poc`: the coordinator loop (lines 127-165); the stream
                           is an explicit finite list, NOW() timestamps are
                           modelled by the batch counter, and the log record
                           of the run (the user-visible output) is collected
                           as a list of `LogEvent`s.

The Python builtin `int(s)` applied to the suffix produced by `split("-")[1]`
is modelled by `digitsToNat`: both succeed on plain digit strings and both
fail on empty or non-numeric suffixes (the cases the claims touch); a
missing suffix, an IndexError in Python, is the `none` branch of the list
index.  An uncaught Python exception in the coordinator loop is an
`Except.error`.
-/

namespace Minicon

/-- Status column of `active_vulnerabilities`: the SQL only ever stores
the literals `Open` and `Fixed`. -/
inductive Status where
  | Open
  | Fixed
deriving DecidableEq

/-- A raw scan finding, as produced by `generate_scan_stream`.  Timestamps
are abstract ticks (`Nat`); the cvss score is an abstract value nothing in
the pipeline computes with. -/
structure RawFinding where
  scan_id : String
  scan_date : Nat
  asset_id : String
  cve_id : String
  cvss_score : Int
  severity : String
  summary : String
deriving DecidableEq

/-- Model of the Python call `s.split("-")` on the character list of `s`: maximal runs
between dashes, so `""` splits to `[""]`, `"a-"` to `["a", ""]`. -/
def splitDash : List Char → List (List Char)
  | [] => [[]]
  | c :: cs =>
    if c = '-' then [] :: splitDash cs
    else
      match splitDash cs with
      | [] => [[c]]
      | p :: ps => (c :: p) :: ps

/-- One step of reading a decimal numeral left to right. -/
def pushDigit (acc : Option Nat) (c : Char) : Option Nat :=
  match acc with
  | none => none
  | some v => if c.isDigit then some (v * 10 + (c.toNat - 48)) else none

/-- Model of the Python builtin `int(s)` on the digit strings the pipeline can meet: the
value of a non-empty all-digit string, `none` (a ValueError) otherwise. -/
def digitsToNat (cs : List Char) : Option Nat :=
  match cs with
  | [] => none
  | _ :: _ => cs.foldl pushDigit (some 0)

/-- The expression `int(record["asset_id"].split("-")[1])` from `enrich_record`:
the second dash-separated component parsed as a number, `none` when the
component is missing (IndexError) or not numeric (ValueError). -/
def parseAssetNum (asset_id : String) : Option Nat :=
  match (splitDash asset_id.data)[1]? with
  | none => none
  | some part => digitsToNat part

/-- The enriched record: the raw fields plus the three derived columns
`enrich_record` adds to the dict. -/
structure EnrichedFinding extends RawFinding where
  stable_identity : String
  team_owner : String
  region : String
deriving DecidableEq

/-- Function `enrich_record` (poc-loader.py lines 46-55).  In Python a malformed
`asset_id` raises; here that is the `none` branch. -/
def enrich_record (r : RawFinding) : Option EnrichedFinding :=
  match parseAssetNum r.asset_id with
  | none => none
  | some asset_num =>
    some { toRawFinding := r,
           stable_identity := "payment-service-" ++ toString (asset_num % 10),
           team_owner := if asset_num % 2 = 0 then "Checkout Team" else "Platform Team",
           region := if asset_num < 50 then "us-east1" else "europe-west2" }

/-- One log line of the run, with the count it carries where it carries
one.  These are the `logging.info` / `logging.error` calls of
poc-loader.py. -/
inductive LogEvent where
  | started
  | archiving (count : Nat)
  | archived (count : Nat)
  | bqErrors
  | upserted (count : Nat)
  | alloyError
  | waiting
  | completed
deriving DecidableEq

/-- Outcome of one `insert_rows_json` call: success, a non-empty error
list returned, or an exception raised inside the worker thread (swallowed
by the unawaited future). -/
inductive BqOutcome where
  | ok
  | rowErrors
  | raised
deriving DecidableEq

/-- One row of the BigQuery archive table, as built in `write_to_bq`;
`json.dumps(item)` keeps the full record, modelled by storing the record
itself. -/
structure ArchiveRow where
  asset_id : String
  scan_date : Nat
  cve_id : String
  findings_json : EnrichedFinding
  ingestion_time : Nat
deriving DecidableEq

/-- Function `write_to_bq` (poc-loader.py lines 59-78): build the rows, log the
attempt, call insert_rows_json, log errors or success.  Returns the rows
that reached the archive and the log lines produced.  A batch whose
insertion reports errors or raises is dropped (no retry). -/
def write_to_bq (outcome : BqOutcome) (now : Nat) (batch : List EnrichedFinding) :
    List ArchiveRow × List LogEvent :=
  let rows := batch.map (fun item =>
    { asset_id := item.asset_id, scan_date := item.scan_date, cve_id := item.cve_id,
      findings_json := item, ingestion_time := now })
  match outcome with
  | BqOutcome.ok => (rows, [LogEvent.archiving batch.length, LogEvent.archived batch.length])
  | BqOutcome.rowErrors => ([], [LogEvent.archiving batch.length, LogEvent.bqErrors])
  | BqOutcome.raised => ([], [LogEvent.archiving batch.length])

/-- One row of `active_vulnerabilities`, the live-state sink. -/
structure ActiveRow where
  stable_identity : String
  technical_id : String
  team_owner : String
  region : String
  cve_id : String
  cvss_score : Int
  severity : String
  status : Status
  first_seen : Nat
  last_seen : Nat
  finding_summary : String
deriving DecidableEq

/-- The unique-key test of the `ON CONFLICT (stable_identity, cve_id)`
clause. -/
def keyMatches (sid cve : String) (row : ActiveRow) : Bool :=
  row.stable_identity == sid && row.cve_id == cve

/-- Look up the row for a key in the state sink. -/
def lookupRow (sid cve : String) (sink : List ActiveRow) : Option ActiveRow :=
  sink.find? (keyMatches sid cve)

/-- The INSERT arm of the upsert SQL: a fresh row with status `Open` and
`first_seen = last_seen = NOW()`. -/
def newRow (now : Nat) (r : EnrichedFinding) : ActiveRow :=
  { stable_identity := r.stable_identity,
    technical_id := r.asset_id,
    team_owner := r.team_owner,
    region := r.region,
    cve_id := r.cve_id,
    cvss_score := r.cvss_score,
    severity := r.severity,
    status := Status.Open,
    first_seen := now,
    last_seen := now,
    finding_summary := r.summary }

/-- The DO UPDATE arm of the upsert SQL: set `last_seen`, `technical_id`
and the conditional status (CASE WHEN the stored status is `Fixed` THEN `Open` ELSE
the stored status END); every other column keeps its value. -/
def updateRow (now : Nat) (r : EnrichedFinding) (row : ActiveRow) : ActiveRow :=
  { row with
    last_seen := now,
    technical_id := r.asset_id,
    status := match row.status with
              | Status.Fixed => Status.Open
              | s => s }

/-- One execution of the upsert statement against the sink: update the row
holding the record's key if present (the unique constraint guarantees at
most one), insert a fresh row otherwise. -/
def upsertOne (now : Nat) (r : EnrichedFinding) : List ActiveRow → List ActiveRow
  | [] => [newRow now r]
  | row :: rest =>
    if keyMatches r.stable_identity r.cve_id row then
      updateRow now r row :: rest
    else
      row :: upsertOne now r rest

/-- The body of `cursor.executemany(upsert_sql, data_tuples)`: the upsert
statement executed once per record, in batch order, inside one
transaction.  `err` is the failure oracle: `err r = true` means the
database raises while executing the statement for record `r`, aborting
the transaction (`none`). -/
def applyBatch (err : EnrichedFinding → Bool) (now : Nat) :
    List ActiveRow → List EnrichedFinding → Option (List ActiveRow)
  | sink, [] => some sink
  | sink, r :: rest =>
    if err r then none
    else applyBatch err now (upsertOne now r sink) rest

/-- Function `write_to_alloy` (poc-loader.py lines 82-123): run the per-record
upserts and commit; on any exception roll the whole batch back
(`conn.rollback()`), leaving the sink as it was, and log the error. -/
def write_to_alloy (err : EnrichedFinding → Bool) (now : Nat) (sink : List ActiveRow)
    (batch : List EnrichedFinding) : List ActiveRow × List LogEvent :=
  match applyBatch err now sink batch with
  | some sink2 => (sink2, [LogEvent.upserted batch.length])
  | none => (sink, [LogEvent.alloyError])

/-- Accumulated observable state of a run: the live-state sink, the
archive sink, the log, and the batches handed to each writer. -/
structure RunResult where
  sink : List ActiveRow
  archive : List ArchiveRow
  log : List LogEvent
  bqBatches : List (List EnrichedFinding)
  alloyBatches : List (List EnrichedFinding)
deriving DecidableEq

/-- The streaming loop of `run_poc` (poc-loader.py lines 144-163): for
each raw record, enrich (an uncaught exception aborts the run), append to
the buffer, and when the buffer reaches `batch_size` dispatch the copied
batch to BigQuery (fire-and-forget, outcome per batch from the oracle
`bq`) and synchronously to AlloyDB, then clear the buffer.  When the
source is exhausted the loop ends without draining a residual buffer, the
executor is awaited and completion is logged.  The batch counter `i`
doubles as the NOW() clock. -/
def runLoop (n : Nat) (bq : Nat → BqOutcome) (err : EnrichedFinding → Bool) :
    List RawFinding → List EnrichedFinding → Nat → RunResult → Except String RunResult
  | [], _buf, _i, acc =>
    Except.ok { acc with log := acc.log ++ [LogEvent.waiting, LogEvent.completed] }
  | r :: rest, buf, i, acc =>
    match enrich_record r with
    | none => Except.error "EnrichmentError"
    | some e =>
      let buf2 := buf ++ [e]
      if n ≤ buf2.length then
        let bqRes := write_to_bq (bq i) i buf2
        let alloyRes := write_to_alloy err i acc.sink buf2
        runLoop n bq err rest [] (i + 1)
          { sink := alloyRes.1,
            archive := acc.archive ++ bqRes.1,
            log := acc.log ++ bqRes.2 ++ alloyRes.2,
            bqBatches := acc.bqBatches ++ [buf2],
            alloyBatches := acc.alloyBatches ++ [buf2] }
      else
        runLoop n bq err rest buf2 i acc

/-- The state of a run before the first record. -/
def initResult : RunResult :=
  { sink := [], archive := [], log := [LogEvent.started],
    bqBatches := [], alloyBatches := [] }

/-- Function `run_poc` on a finite stream with batch size `n`. -/
def run_poc (n : Nat) (bq : Nat → BqOutcome) (err : EnrichedFinding → Bool)
    (stream : List RawFinding) : Except String RunResult :=
  runLoop n bq err stream [] 0 initResult

/-- The batching discipline of the loop in isolation: enriched records
enter a buffer one at a time and a batch is emitted each time the buffer
reaches `n`; whatever is left in the buffer when the stream ends is not
emitted. -/
def batchLoop (n : Nat) : List EnrichedFinding → List EnrichedFinding → List (List EnrichedFinding)
  | [], _buf => []
  | r :: rest, buf =>
    if n ≤ (buf ++ [r]).length then (buf ++ [r]) :: batchLoop n rest []
    else batchLoop n rest (buf ++ [r])

/-- The records still sitting in the buffer when the stream runs out:
the residual the loop never dispatches. -/
def leftover (n : Nat) : List EnrichedFinding → List EnrichedFinding → List EnrichedFinding
  | [], buf => buf
  | r :: rest, buf =>
    if n ≤ (buf ++ [r]).length then leftover n rest []
    else leftover n rest (buf ++ [r])

/-- The derived triple the spec calls (stable_identity, owner, region). -/
def enrichedFields (e : EnrichedFinding) : String × String × String :=
  (e.stable_identity, e.team_owner, e.region)

/-- The count a log line carries, when it carries one. -/
def eventNum : LogEvent → Option Nat
  | LogEvent.archiving k => some k
  | LogEvent.archived k => some k
  | LogEvent.upserted k => some k
  | _ => none

/-- Whether some line of the output reports the number `k`. -/
def reportsCount (log : List LogEvent) (k : Nat) : Bool :=
  log.any (fun e => eventNum e == some k)

/-- The ten stable service identities `enrich_record` can produce. -/
def serviceNames : List String :=
  (List.range 10).map (fun k => "payment-service-" ++ toString k)

/-- The part of a run outcome that the State Writer path produces: its
completion status, the final live-state sink and the batches handed to
the state writer. -/
def statePart (res : Except String RunResult) :
    Except String (List ActiveRow × List (List EnrichedFinding)) :=
  match res with
  | Except.error e => Except.error e
  | Except.ok r => Except.ok (r.sink, r.alloyBatches)

/-- A concrete raw finding, for witnesses and counterexamples. -/
def mkRaw (aid cve : String) : RawFinding :=
  { scan_id := "scan-1", scan_date := 0, asset_id := aid, cve_id := cve,
    cvss_score := 7, severity := "High", summary := "demo" }

/-- A concrete enriched finding, the enrichment of `asset-3`. -/
def demoEnriched : EnrichedFinding :=
  { toRawFinding := mkRaw "asset-3" "CVE-2024-1111",
    stable_identity := "payment-service-3",
    team_owner := "Platform Team",
    region := "us-east1" }

/-- A state-sink row for the key of `demoEnriched`, currently `Fixed`. -/
def fixedRow : ActiveRow :=
  { newRow 0 demoEnriched with status := Status.Fixed }

/-- A one-row state sink holding `fixedRow`. -/
def demoSink : List ActiveRow := [fixedRow]

/-- The oracle under which every BigQuery insertion succeeds. -/
def okBq : Nat → BqOutcome := fun _ => BqOutcome.ok

/-- The oracle under which no AlloyDB statement fails. -/
def noErr : EnrichedFinding → Bool := fun _ => false

/-- The oracle under which every AlloyDB statement fails. -/
def allErr : EnrichedFinding → Bool := fun _ => true

/-- A stream of three well-formed raw findings. -/
def threeRaws : List RawFinding :=
  [mkRaw "asset-1" "CVE-1", mkRaw "asset-2" "CVE-2", mkRaw "asset-3" "CVE-3"]

/-- A stream of five well-formed raw findings. -/
def fiveRaws : List RawFinding :=
  threeRaws ++ [mkRaw "asset-4" "CVE-4", mkRaw "asset-5" "CVE-5"]

/-! ### Lemmas about the conflict arm of the upsert -/

/-- The DO UPDATE arm always leaves the row `Open`: a `Fixed` row is
reopened and an `Open` row is kept. -/
lemma updateRow_status (now : Nat) (r : EnrichedFinding) (row : ActiveRow) :
    (updateRow now r row).status = Status.Open := by
  cases h : row.status <;> simp [updateRow, h]

/-- The DO UPDATE arm does not move the row to a different key. -/
lemma keyMatches_updateRow (sid cve : String) (now : Nat) (r : EnrichedFinding)
    (row : ActiveRow) :
    keyMatches sid cve (updateRow now r row) = keyMatches sid cve row := by
  simp [keyMatches, updateRow]

/-- Unfolding of `lookupRow` on a non-empty sink. -/
lemma lookupRow_cons (sid cve : String) (row : ActiveRow) (rest : List ActiveRow) :
    lookupRow sid cve (row :: rest) =
      if keyMatches sid cve row then some row else lookupRow sid cve rest := by
  by_cases h : keyMatches sid cve row <;>
    simp [lookupRow, List.find?_cons, h]

/-- A record always matches the fresh row inserted for it. -/
lemma keyMatches_newRow (now : Nat) (r : EnrichedFinding) :
    keyMatches r.stable_identity r.cve_id (newRow now r) = true := by
  simp [keyMatches, newRow]

/-- When the key of the incoming record is present, the upsert rewrites
exactly that row through the DO UPDATE arm. -/
lemma upsertOne_lookup_of_found (now : Nat) (r : EnrichedFinding) :
    ∀ (sink : List ActiveRow) (row : ActiveRow),
      lookupRow r.stable_identity r.cve_id sink = some row →
      lookupRow r.stable_identity r.cve_id (upsertOne now r sink) =
        some (updateRow now r row)
  | [], row, h => by simp [lookupRow] at h
  | head :: rest, row, h => by
    by_cases hk : keyMatches r.stable_identity r.cve_id head
    · rw [lookupRow_cons] at h
      simp [hk] at h
      subst h
      simp [upsertOne, hk, lookupRow_cons, keyMatches_updateRow]
    · rw [lookupRow_cons] at h
      simp [hk] at h
      simp [upsertOne, hk, lookupRow_cons]
      exact upsertOne_lookup_of_found now r rest row h

/-- After an upsert the key of the upserted record is present and its row
is `Open`, whether the key existed before or not. -/
lemma upsertOne_lookup_self (now : Nat) (r : EnrichedFinding) :
    ∀ sink : List ActiveRow,
      ∃ row2, lookupRow r.stable_identity r.cve_id (upsertOne now r sink) = some row2 ∧
        row2.status = Status.Open
  | [] => by
    refine ⟨newRow now r, ?_, rfl⟩
    simp [upsertOne, lookupRow_cons, keyMatches_newRow]
  | head :: rest => by
    by_cases hk : keyMatches r.stable_identity r.cve_id head
    · exact ⟨updateRow now r head,
        by simp [upsertOne, hk, lookupRow_cons, keyMatches_updateRow],
        updateRow_status now r head⟩
    · obtain ⟨row2, h1, h2⟩ := upsertOne_lookup_self now r rest
      refine ⟨row2, ?_, h2⟩
      simp [upsertOne, hk, lookupRow_cons, h1]

/-- Any `Fixed` row found after an upsert was already in the sink before
it: the upsert never writes the status `Fixed`. -/
lemma upsertOne_fixed_mem (now : Nat) (r : EnrichedFinding) :
    ∀ (sink : List ActiveRow) (row2 : ActiveRow),
      row2 ∈ upsertOne now r sink → row2.status = Status.Fixed → row2 ∈ sink
  | [], row2, hm, hf => by
    simp [upsertOne] at hm
    subst hm
    simp [newRow] at hf
  | head :: rest, row2, hm, hf => by
    by_cases hk : keyMatches r.stable_identity r.cve_id head
    · simp [upsertOne, hk] at hm
      rcases hm with h | h
      · subst h
        rw [updateRow_status] at hf
        exact absurd hf (by simp)
      · exact List.mem_cons_of_mem _ h
    · simp [upsertOne, hk] at hm
      rcases hm with h | h
      · subst h
        exact List.mem_cons_self _ _
      · exact List.mem_cons_of_mem _ (upsertOne_fixed_mem now r rest row2 h hf)

/-! ### Claim C1 -/

/-- C1: for an existing row under the key of the incoming record, one
State Writer upsert yields status `Open` when the row is `Fixed` and
leaves status `Open` when it is `Open`; and no row of the sink acquires
status `Fixed` through this path. -/
theorem upsert_status_monotone (now : Nat) (r : EnrichedFinding)
    (sink : List ActiveRow) (row : ActiveRow)
    (h : lookupRow r.stable_identity r.cve_id sink = some row) :
    (∃ row2, lookupRow r.stable_identity r.cve_id (upsertOne now r sink) = some row2 ∧
       (row.status = Status.Fixed → row2.status = Status.Open) ∧
       (row.status = Status.Open → row2.status = Status.Open)) ∧
    (∀ row2 ∈ upsertOne now r sink, row2.status = Status.Fixed → row2 ∈ sink) := by
  refine ⟨⟨updateRow now r row, upsertOne_lookup_of_found now r sink row h, ?_, ?_⟩,
    fun row2 hm hf => upsertOne_fixed_mem now r sink row2 hm hf⟩
  · intro _
    exact updateRow_status now r row
  · intro _
    exact updateRow_status now r row

/-- Witness for C1 at a concrete `Fixed` row. -/
theorem upsert_status_monotone_witness :
    lookupRow demoEnriched.stable_identity demoEnriched.cve_id demoSink = some fixedRow ∧
    ((∃ row2, lookupRow demoEnriched.stable_identity demoEnriched.cve_id
        (upsertOne 5 demoEnriched demoSink) = some row2 ∧
       (fixedRow.status = Status.Fixed → row2.status = Status.Open) ∧
       (fixedRow.status = Status.Open → row2.status = Status.Open)) ∧
     (∀ row2 ∈ upsertOne 5 demoEnriched demoSink,
        row2.status = Status.Fixed → row2 ∈ demoSink)) :=
  ⟨rfl, upsert_status_monotone 5 demoEnriched demoSink fixedRow rfl⟩

/-! ### Claim C5 -/

/-- C5: when the upsert hits an existing row, the row is rewritten with
`last_seen = now` and `technical_id` refreshed, while `first_seen`,
`team_owner`, `region`, `cvss_score`, `severity`, the summary and the key
columns keep their prior values. -/
theorem upsert_frame_effect (now : Nat) (r : EnrichedFinding)
    (sink : List ActiveRow) (row : ActiveRow)
    (h : lookupRow r.stable_identity r.cve_id sink = some row) :
    lookupRow r.stable_identity r.cve_id (upsertOne now r sink) =
      some (updateRow now r row) ∧
    (updateRow now r row).first_seen = row.first_seen ∧
    (updateRow now r row).team_owner = row.team_owner ∧
    (updateRow now r row).region = row.region ∧
    (updateRow now r row).cvss_score = row.cvss_score ∧
    (updateRow now r row).severity = row.severity ∧
    (updateRow now r row).finding_summary = row.finding_summary ∧
    (updateRow now r row).stable_identity = row.stable_identity ∧
    (updateRow now r row).cve_id = row.cve_id ∧
    (updateRow now r row).last_seen = now ∧
    (updateRow now r row).technical_id = r.asset_id := by
  exact ⟨upsertOne_lookup_of_found now r sink row h,
    rfl, rfl, rfl, rfl, rfl, rfl, rfl, rfl, rfl, rfl⟩

/-- Witness for C5 at a concrete existing row. -/
theorem upsert_frame_effect_witness :
    lookupRow demoEnriched.stable_identity demoEnriched.cve_id demoSink = some fixedRow ∧
    (lookupRow demoEnriched.stable_identity demoEnriched.cve_id
       (upsertOne 5 demoEnriched demoSink) = some (updateRow 5 demoEnriched fixedRow) ∧
     (updateRow 5 demoEnriched fixedRow).first_seen = fixedRow.first_seen ∧
     (updateRow 5 demoEnriched fixedRow).team_owner = fixedRow.team_owner ∧
     (updateRow 5 demoEnriched fixedRow).region = fixedRow.region ∧
     (updateRow 5 demoEnriched fixedRow).cvss_score = fixedRow.cvss_score ∧
     (updateRow 5 demoEnriched fixedRow).severity = fixedRow.severity ∧
     (updateRow 5 demoEnriched fixedRow).finding_summary = fixedRow.finding_summary ∧
     (updateRow 5 demoEnriched fixedRow).stable_identity = fixedRow.stable_identity ∧
     (updateRow 5 demoEnriched fixedRow).cve_id = fixedRow.cve_id ∧
     (updateRow 5 demoEnriched fixedRow).last_seen = 5 ∧
     (updateRow 5 demoEnriched fixedRow).technical_id = demoEnriched.asset_id) :=
  ⟨rfl, upsert_frame_effect 5 demoEnriched demoSink fixedRow rfl⟩

/-! ### Claim C9 -/

/-- C9: upserting the same record twice in a row (nothing else touching
the sink in between) leaves the status of its key at `Open` after the
first call and unchanged after the second: the second upsert is a no-op
on status. -/
theorem upsert_twice_status_noop (now1 now2 : Nat) (r : EnrichedFinding)
    (sink : List ActiveRow) :
    ∃ row1 row2,
      lookupRow r.stable_identity r.cve_id (upsertOne now1 r sink) = some row1 ∧
      lookupRow r.stable_identity r.cve_id
        (upsertOne now2 r (upsertOne now1 r sink)) = some row2 ∧
      row1.status = Status.Open ∧ row2.status = row1.status := by
  obtain ⟨row1, h1, hs⟩ := upsertOne_lookup_self now1 r sink
  refine ⟨row1, updateRow now2 r row1, h1,
    upsertOne_lookup_of_found now2 r _ row1 h1, hs, ?_⟩
  rw [updateRow_status, hs]

/-! ### Claim C4 -/

/-- The transaction body aborts exactly when some record of the batch
makes the database raise. -/
lemma applyBatch_eq_none_iff (err : EnrichedFinding → Bool) (now : Nat) :
    ∀ (batch : List EnrichedFinding) (sink : List ActiveRow),
      applyBatch err now sink batch = none ↔ ∃ r ∈ batch, err r = true
  | [], sink => by simp [applyBatch]
  | r :: rest, sink => by
    by_cases hr : err r = true
    · simp [applyBatch, hr]
    · simp [applyBatch, hr, applyBatch_eq_none_iff err now rest]

/-- C4: when any per-record step of a batch fails, the whole batch is
rolled back: the state sink after the failed batch equals the state sink
before it and the batch is reported as an error. -/
theorem alloy_batch_atomic (err : EnrichedFinding → Bool) (now : Nat)
    (sink : List ActiveRow) (batch : List EnrichedFinding)
    (h : ∃ r ∈ batch, err r = true) :
    write_to_alloy err now sink batch = (sink, [LogEvent.alloyError]) := by
  have hn : applyBatch err now sink batch = none :=
    (applyBatch_eq_none_iff err now batch sink).mpr h
  simp [write_to_alloy, hn]

/-- Witness for C4: a batch whose single record fails leaves the demo
sink untouched. -/
theorem alloy_batch_atomic_witness :
    (∃ r ∈ [demoEnriched], allErr r = true) ∧
    write_to_alloy allErr 5 demoSink [demoEnriched] = (demoSink, [LogEvent.alloyError]) :=
  ⟨⟨demoEnriched, by simp [allErr]⟩,
   alloy_batch_atomic allErr 5 demoSink [demoEnriched] ⟨demoEnriched, by simp [allErr]⟩⟩

/-! ### Claim C8 -/

/-- C8: enrichment is a pure function of the technical identifier: two
raw findings with the same `asset_id` enrich to the same
`(stable_identity, owner, region)` triple, no matter how every other
field differs. -/
theorem enrich_deterministic (r1 r2 : RawFinding) (h : r1.asset_id = r2.asset_id) :
    (enrich_record r1).map enrichedFields = (enrich_record r2).map enrichedFields := by
  unfold enrich_record
  rw [h]
  cases parseAssetNum r2.asset_id <;> simp [enrichedFields]

/-- Witness for C8: two findings sharing `asset-7` but nothing else. -/
theorem enrich_deterministic_witness :
    (mkRaw "asset-7" "CVE-A").asset_id = (mkRaw "asset-7" "CVE-B").asset_id ∧
    (enrich_record (mkRaw "asset-7" "CVE-A")).map enrichedFields =
      (enrich_record (mkRaw "asset-7" "CVE-B")).map enrichedFields :=
  ⟨rfl, enrich_deterministic (mkRaw "asset-7" "CVE-A") (mkRaw "asset-7" "CVE-B") rfl⟩

/-! ### Claim C10 -/

/-- C10: on a well-formed technical identifier with numeric suffix `N`,
enrichment succeeds and its derived fields range over a fixed finite set:
the stable identity is the entry `N % 10` of the ten service names, the
owner is `Checkout Team` exactly for even `N` and `Platform Team`
otherwise, and the region is `us-east1` exactly for `N < 50` and
`europe-west2` otherwise. -/
theorem enrich_range_finite (r : RawFinding) (N : Nat)
    (h : parseAssetNum r.asset_id = some N) :
    ∃ e, enrich_record r = some e ∧
      serviceNames[N % 10]? = some e.stable_identity ∧
      (e.team_owner = "Checkout Team" ↔ N % 2 = 0) ∧
      (e.team_owner = "Checkout Team" ∨ e.team_owner = "Platform Team") ∧
      (e.region = "us-east1" ↔ N < 50) ∧
      (e.region = "us-east1" ∨ e.region = "europe-west2") := by
  have he : enrich_record r = some
      { toRawFinding := r,
        stable_identity := "payment-service-" ++ toString (N % 10),
        team_owner := if N % 2 = 0 then "Checkout Team" else "Platform Team",
        region := if N < 50 then "us-east1" else "europe-west2" } := by
    unfold enrich_record
    rw [h]
  refine ⟨_, he, ?_, ?_, ?_, ?_, ?_⟩
  · have h10 : N % 10 < 10 := Nat.mod_lt _ (by norm_num)
    simp [serviceNames, List.getElem?_map, List.getElem?_range, h10]
  · by_cases h2 : N % 2 = 0 <;> simp [h2]
  · by_cases h2 : N % 2 = 0 <;> simp [h2]
  · by_cases h50 : N < 50 <;> simp [h50]
  · by_cases h50 : N < 50 <;> simp [h50]

/-! ### Lemmas about the batching loop -/

/-- Every batch the loop emits is exactly full. -/
lemma batchLoop_sizes (n : Nat) :
    ∀ (l buf : List EnrichedFinding), buf.length < n →
      ∀ b ∈ batchLoop n l buf, b.length = n
  | [], _buf, _hb => by simp [batchLoop]
  | r :: rest, buf, hb => by
    intro b hbmem
    by_cases hfull : n ≤ (buf ++ [r]).length
    · simp only [batchLoop, if_pos hfull, List.mem_cons] at hbmem
      rcases hbmem with h | h
      · subst h
        simp only [List.length_append, List.length_cons, List.length_nil] at hfull ⊢
        omega
      · exact batchLoop_sizes n rest []
          (by simp only [List.length_nil]; exact Nat.lt_of_le_of_lt (Nat.zero_le _) hb) b h
    · simp only [batchLoop, if_neg hfull] at hbmem
      exact batchLoop_sizes n rest (buf ++ [r]) (Nat.lt_of_not_le hfull) b hbmem

/-- The loop emits one batch per `n` records that entered the buffer. -/
lemma batchLoop_count (n : Nat) :
    ∀ (l buf : List EnrichedFinding), buf.length < n →
      (batchLoop n l buf).length = (buf.length + l.length) / n
  | [], buf, hb => by
    simp only [batchLoop, List.length_nil, Nat.add_zero]
    exact (Nat.div_eq_of_lt hb).symm
  | r :: rest, buf, hb => by
    by_cases hfull : n ≤ (buf ++ [r]).length
    · have h0 : 0 < n := Nat.lt_of_le_of_lt (Nat.zero_le _) hb
      have hkey : buf.length + 1 = n := by
        simp only [List.length_append, List.length_cons, List.length_nil] at hfull
        omega
      simp only [batchLoop, if_pos hfull, List.length_cons]
      rw [batchLoop_count n rest []
        (by simp only [List.length_nil]; exact Nat.lt_of_le_of_lt (Nat.zero_le _) hb)]
      simp only [List.length_nil, Nat.zero_add, List.length_cons]
      have h1 : buf.length + (rest.length + 1) = rest.length + n := by omega
      rw [h1, Nat.add_div_right _ h0]
    · simp only [batchLoop, if_neg hfull, List.length_cons]
      rw [batchLoop_count n rest (buf ++ [r]) (Nat.lt_of_not_le hfull)]
      have h1 : (buf ++ [r]).length + rest.length = buf.length + (rest.length + 1) := by
        simp only [List.length_append, List.length_cons, List.length_nil]
        omega
      rw [h1]

/-- The emitted batches and the residual buffer together are exactly the
input, in order. -/
lemma batchLoop_flatten_leftover (n : Nat) :
    ∀ (l buf : List EnrichedFinding),
      (batchLoop n l buf).flatten ++ leftover n l buf = buf ++ l
  | [], buf => by simp [batchLoop, leftover]
  | r :: rest, buf => by
    by_cases hfull : n ≤ (buf ++ [r]).length
    · simp only [batchLoop, leftover, if_pos hfull, List.flatten_cons, List.append_assoc]
      rw [batchLoop_flatten_leftover n rest []]
      simp
    · simp only [batchLoop, leftover, if_neg hfull]
      rw [batchLoop_flatten_leftover n rest (buf ++ [r])]
      simp

/-- A list of lists, all of length `n`, flattens to `n` times as many
elements as there are lists. -/
lemma flatten_length_of_sizes (n : Nat) :
    ∀ batches : List (List EnrichedFinding),
      (∀ b ∈ batches, b.length = n) →
      batches.flatten.length = n * batches.length
  | [], _h => by simp
  | b :: bs, h => by
    have hb : b.length = n := h b (List.mem_cons_self _ _)
    have ih := flatten_length_of_sizes n bs (fun x hx => h x (List.mem_cons_of_mem _ hx))
    simp only [List.flatten_cons, List.length_append, List.length_cons, hb, ih]
    rw [Nat.mul_succ, Nat.add_comm]

/-! ### Lemmas about the coordinator loop -/

/-- When every record enriches, the run completes and the batches handed
to both writers are exactly those of the batching loop on the enriched
stream. -/
lemma runLoop_ok_batches (n : Nat) (bq : Nat → BqOutcome) (err : EnrichedFinding → Bool) :
    ∀ (raws : List RawFinding) (buf : List EnrichedFinding) (i : Nat) (acc : RunResult),
      (∀ x ∈ raws, (enrich_record x).isSome) →
      ∃ res, runLoop n bq err raws buf i acc = Except.ok res ∧
        res.alloyBatches = acc.alloyBatches ++ batchLoop n (raws.filterMap enrich_record) buf ∧
        res.bqBatches = acc.bqBatches ++ batchLoop n (raws.filterMap enrich_record) buf
  | [], _buf, _i, acc, _h => ⟨_, rfl, by simp [batchLoop], by simp [batchLoop]⟩
  | r :: rest, buf, i, acc, h => by
    obtain ⟨e, he⟩ := Option.isSome_iff_exists.mp (h r (List.mem_cons_self _ _))
    have hrest : ∀ x ∈ rest, (enrich_record x).isSome :=
      fun x hx => h x (List.mem_cons_of_mem _ hx)
    simp only [runLoop, he, List.filterMap_cons, batchLoop]
    by_cases hfull : n ≤ (buf ++ [e]).length
    · simp only [if_pos hfull]
      obtain ⟨res, hrun, hA, hB⟩ := runLoop_ok_batches n bq err rest [] (i + 1)
        { sink := (write_to_alloy err i acc.sink (buf ++ [e])).1,
          archive := acc.archive ++ (write_to_bq (bq i) i (buf ++ [e])).1,
          log := acc.log ++ (write_to_bq (bq i) i (buf ++ [e])).2 ++
            (write_to_alloy err i acc.sink (buf ++ [e])).2,
          bqBatches := acc.bqBatches ++ [buf ++ [e]],
          alloyBatches := acc.alloyBatches ++ [buf ++ [e]] } hrest
      refine ⟨res, hrun, ?_, ?_⟩
      · rw [hA]
        simp [List.append_assoc]
      · rw [hB]
        simp [List.append_assoc]
    · simp only [if_neg hfull]
      exact runLoop_ok_batches n bq err rest (buf ++ [e]) i acc hrest

/-- A malformed record aborts the loop wherever it sits, as long as the
records before it enrich. -/
lemma runLoop_error_of_malformed (n : Nat) (bq : Nat → BqOutcome)
    (err : EnrichedFinding → Bool) (r : RawFinding) (hr : enrich_record r = none)
    (rest : List RawFinding) :
    ∀ (pre : List RawFinding) (buf : List EnrichedFinding) (i : Nat) (acc : RunResult),
      (∀ x ∈ pre, (enrich_record x).isSome) →
      runLoop n bq err (pre ++ r :: rest) buf i acc = Except.error "EnrichmentError"
  | [], _buf, _i, _acc, _h => by simp [runLoop, hr]
  | p :: pre, buf, i, acc, h => by
    obtain ⟨e, he⟩ := Option.isSome_iff_exists.mp (h p (List.mem_cons_self _ _))
    have hpre : ∀ x ∈ pre, (enrich_record x).isSome :=
      fun x hx => h x (List.mem_cons_of_mem _ hx)
    simp only [List.cons_append, runLoop, he]
    by_cases hfull : n ≤ (buf ++ [e]).length
    · simp only [if_pos hfull]
      exact runLoop_error_of_malformed n bq err r hr rest pre [] (i + 1) _ hpre
    · simp only [if_neg hfull]
      exact runLoop_error_of_malformed n bq err r hr rest pre (buf ++ [e]) i acc hpre

/-- The state-writer side of the loop never looks at the archive outcome:
two runs differing only in the BigQuery oracle abort at the same records,
build the same live-state sink and dispatch the same state batches. -/
lemma runLoop_state_independent (n : Nat) (err : EnrichedFinding → Bool)
    (bq1 bq2 : Nat → BqOutcome) :
    ∀ (raws : List RawFinding) (buf : List EnrichedFinding) (i : Nat)
      (acc1 acc2 : RunResult),
      acc1.sink = acc2.sink → acc1.alloyBatches = acc2.alloyBatches →
      statePart (runLoop n bq1 err raws buf i acc1) =
        statePart (runLoop n bq2 err raws buf i acc2)
  | [], _buf, _i, acc1, acc2, hs, hb => by simp [runLoop, statePart, hs, hb]
  | r :: rest, buf, i, acc1, acc2, hs, hb => by
    cases he : enrich_record r with
    | none => simp [runLoop, he, statePart]
    | some e =>
      simp only [runLoop, he]
      by_cases hfull : n ≤ (buf ++ [e]).length
      · simp only [if_pos hfull]
        apply runLoop_state_independent n err bq1 bq2 rest [] (i + 1)
        · simp [hs]
        · simp [hb]
      · simp only [if_neg hfull]
        exact runLoop_state_independent n err bq1 bq2 rest (buf ++ [e]) i acc1 acc2 hs hb

/-- Batches already dispatched stay dispatched: the loop only appends. -/
lemma runLoop_batches_mono (n : Nat) (bq : Nat → BqOutcome) (err : EnrichedFinding → Bool) :
    ∀ (raws : List RawFinding) (buf : List EnrichedFinding) (i : Nat) (acc res : RunResult),
      runLoop n bq err raws buf i acc = Except.ok res →
      ∀ b ∈ acc.alloyBatches, b ∈ res.alloyBatches
  | [], _buf, _i, acc, res, h => by
    simp only [runLoop, Except.ok.injEq] at h
    subst h
    simp
  | r :: rest, buf, i, acc, res, h => by
    cases he : enrich_record r with
    | none => simp [runLoop, he] at h
    | some e =>
      simp only [runLoop, he] at h
      by_cases hfull : n ≤ (buf ++ [e]).length
      · simp only [if_pos hfull] at h
        intro b hbmem
        exact runLoop_batches_mono n bq err rest [] (i + 1) _ res h b
          (by simpa using Or.inl hbmem)
      · simp only [if_neg hfull] at h
        exact runLoop_batches_mono n bq err rest (buf ++ [e]) i acc res h

/-- Any count a `write_to_bq` log line carries is the batch size. -/
lemma write_to_bq_counts (o : BqOutcome) (now : Nat) (batch : List EnrichedFinding)
    (k : Nat) (h : reportsCount (write_to_bq o now batch).2 k = true) :
    k = batch.length := by
  cases o <;> simp [write_to_bq, reportsCount, eventNum] at h <;> omega

/-- Any count a `write_to_alloy` log line carries is the batch size. -/
lemma write_to_alloy_counts (err : EnrichedFinding → Bool) (now : Nat)
    (sink : List ActiveRow) (batch : List EnrichedFinding) (k : Nat)
    (h : reportsCount (write_to_alloy err now sink batch).2 k = true) :
    k = batch.length := by
  rcases happ : applyBatch err now sink batch with _ | s
  · simp [write_to_alloy, happ, reportsCount, eventNum] at h
  · simp [write_to_alloy, happ, reportsCount, eventNum] at h
    omega

/-- Every count reported by a completed loop either was already in the
log or is the size of a dispatched batch. -/
lemma runLoop_log_counts (n : Nat) (bq : Nat → BqOutcome) (err : EnrichedFinding → Bool) :
    ∀ (raws : List RawFinding) (buf : List EnrichedFinding) (i : Nat) (acc res : RunResult),
      runLoop n bq err raws buf i acc = Except.ok res →
      ∀ k, reportsCount res.log k = true →
        reportsCount acc.log k = true ∨ ∃ b ∈ res.alloyBatches, b.length = k
  | [], _buf, _i, acc, res, h => by
    simp only [runLoop, Except.ok.injEq] at h
    subst h
    intro k hk
    simp only [reportsCount, List.any_append, Bool.or_eq_true] at hk
    rcases hk with hk | hk
    · exact Or.inl hk
    · simp [eventNum] at hk
  | r :: rest, buf, i, acc, res, h => by
    cases he : enrich_record r with
    | none => simp [runLoop, he] at h
    | some e =>
      simp only [runLoop, he] at h
      by_cases hfull : n ≤ (buf ++ [e]).length
      · simp only [if_pos hfull] at h
        intro k hk
        rcases runLoop_log_counts n bq err rest [] (i + 1) _ res h k hk with hacc | hbatch
        · simp only [reportsCount, List.any_append, Bool.or_eq_true] at hacc
          rcases hacc with hacc | hacc
          · rcases hacc with hacc | hacc
            · exact Or.inl hacc
            · refine Or.inr ⟨buf ++ [e], ?_, ?_⟩
              · exact runLoop_batches_mono n bq err rest [] (i + 1) _ res h _
                  (by simp)
              · exact (write_to_bq_counts (bq i) i (buf ++ [e]) k hacc).symm
          · refine Or.inr ⟨buf ++ [e], ?_, ?_⟩
            · exact runLoop_batches_mono n bq err rest [] (i + 1) _ res h _
                (by simp)
            · exact (write_to_alloy_counts err i acc.sink (buf ++ [e]) k hacc).symm
        · exact Or.inr hbatch
      · simp only [if_neg hfull] at h
        exact runLoop_log_counts n bq err rest (buf ++ [e]) i acc res h

/-! ### Claim C2 -/

/-- Counterexample to C2 as stated: with batch size 2 and a stream of 3
well-formed records, the code dispatches 1 batch covering 2 records,
while the claim requires ceil(3 / 2) = 2 batches covering all 3; the
residual record is never dispatched. -/
theorem run_drops_residual_cex :
    (run_poc 2 okBq noErr threeRaws).map
      (fun res => (res.alloyBatches.length, res.alloyBatches.flatten.length)) =
        Except.ok (1, 2) ∧
    threeRaws.length = 3 ∧ (3 + 2 - 1) / 2 = 2 :=
  ⟨rfl, rfl, rfl⟩

/-- C2 as amended: for a positive batch size `n` and a stream of `L`
well-formed records, the pipeline dispatches exactly `⌊L/n⌋` batches to
both writers, each of size exactly `n`, and together they are the first
`n * ⌊L/n⌋` enriched records in original order; the residual partial
batch is not dispatched. -/
theorem run_dispatches_floor_batches (n : Nat) (hn : 0 < n) (bq : Nat → BqOutcome)
    (err : EnrichedFinding → Bool) (raws : List RawFinding)
    (h : ∀ x ∈ raws, (enrich_record x).isSome) :
    ∃ res, run_poc n bq err raws = Except.ok res ∧
      res.bqBatches = res.alloyBatches ∧
      res.alloyBatches.length = raws.length / n ∧
      (∀ b ∈ res.alloyBatches, b.length = n) ∧
      res.alloyBatches.flatten =
        (raws.filterMap enrich_record).take (n * (raws.length / n)) := by
  obtain ⟨res, hrun, hA, hB⟩ := runLoop_ok_batches n bq err raws [] 0 initResult h
  have hlen : (raws.filterMap enrich_record).length = raws.length :=
    List.filterMap_length_eq_length.mpr h
  have hbatches : res.alloyBatches = batchLoop n (raws.filterMap enrich_record) [] := by
    rw [hA]
    simp [initResult]
  have hcount : res.alloyBatches.length = raws.length / n := by
    rw [hbatches, batchLoop_count n _ [] (by simpa using hn)]
    simp [hlen]
  have hsizes : ∀ b ∈ res.alloyBatches, b.length = n := by
    rw [hbatches]
    exact batchLoop_sizes n _ [] (by simpa using hn)
  refine ⟨res, hrun, ?_, hcount, hsizes, ?_⟩
  · rw [hA, hB]
    simp [initResult]
  · have hflat : res.alloyBatches.flatten ++ leftover n (raws.filterMap enrich_record) [] =
        raws.filterMap enrich_record := by
      rw [hbatches]
      simpa using batchLoop_flatten_leftover n (raws.filterMap enrich_record) []
    have hflen : res.alloyBatches.flatten.length = n * (raws.length / n) := by
      rw [flatten_length_of_sizes n res.alloyBatches hsizes, hcount]
    calc res.alloyBatches.flatten
        = (res.alloyBatches.flatten ++
            leftover n (raws.filterMap enrich_record) []).take
              res.alloyBatches.flatten.length := (List.take_left _ _).symm
      _ = (raws.filterMap enrich_record).take (n * (raws.length / n)) := by
          rw [hflat, hflen]

/-- Witness for the amended C2 at batch size 2 on three records. -/
theorem run_dispatches_floor_batches_witness :
    0 < 2 ∧ (∀ x ∈ threeRaws, (enrich_record x).isSome) ∧
    (∃ res, run_poc 2 okBq noErr threeRaws = Except.ok res ∧
      res.bqBatches = res.alloyBatches ∧
      res.alloyBatches.length = threeRaws.length / 2 ∧
      (∀ b ∈ res.alloyBatches, b.length = 2) ∧
      res.alloyBatches.flatten =
        (threeRaws.filterMap enrich_record).take (2 * (threeRaws.length / 2))) :=
  ⟨by decide, by decide,
   run_dispatches_floor_batches 2 (by decide) okBq noErr threeRaws (by decide)⟩

/-! ### Claim C3 -/

/-- Counterexample to C3 as stated: a malformed technical identifier
aborts the whole run instead of being skipped; the well-formed record
behind it is never processed, though alone it would have been dispatched. -/
theorem run_abort_on_malformed_cex :
    run_poc 1 okBq noErr [mkRaw "asset-xyz" "CVE-1", mkRaw "asset-2" "CVE-2"] =
      Except.error "EnrichmentError" ∧
    (run_poc 1 okBq noErr [mkRaw "asset-2" "CVE-2"]).map
      (fun res => res.alloyBatches.length) = Except.ok 1 :=
  ⟨rfl, rfl⟩

/-- C3 as amended: a record whose technical identifier is malformed makes
the enrichment step raise; the exception is not caught, so the run aborts
at that record and the remainder of the stream is not processed. -/
theorem run_aborts_at_first_malformed (n : Nat) (bq : Nat → BqOutcome)
    (err : EnrichedFinding → Bool) (pre : List RawFinding) (r : RawFinding)
    (rest : List RawFinding) (hr : enrich_record r = none)
    (hpre : ∀ x ∈ pre, (enrich_record x).isSome) :
    run_poc n bq err (pre ++ r :: rest) = Except.error "EnrichmentError" :=
  runLoop_error_of_malformed n bq err r hr rest pre [] 0 initResult hpre

/-- Witness for the amended C3: a malformed record in second position. -/
theorem run_aborts_at_first_malformed_witness :
    enrich_record (mkRaw "asset-xyz" "CVE-9") = none ∧
    (∀ x ∈ [mkRaw "asset-2" "CVE-2"], (enrich_record x).isSome) ∧
    run_poc 3 okBq noErr
      ([mkRaw "asset-2" "CVE-2"] ++ mkRaw "asset-xyz" "CVE-9" :: [mkRaw "asset-4" "CVE-4"]) =
      Except.error "EnrichmentError" :=
  ⟨by decide, by decide,
   run_aborts_at_first_malformed 3 okBq noErr [mkRaw "asset-2" "CVE-2"]
     (mkRaw "asset-xyz" "CVE-9") [mkRaw "asset-4" "CVE-4"] (by decide) (by decide)⟩

/-! ### Claim C6 -/

/-- C6: the archive writer runs in its own failure domain.  Whatever the
BigQuery outcome of any batch (success, reported row errors, or a raised
exception swallowed by the fire-and-forget future), the run aborts at the
same records, the State Writer receives exactly the same batches and the
final live-state sink is identical. -/
theorem archive_failure_isolated (n : Nat) (err : EnrichedFinding → Bool)
    (raws : List RawFinding) (bq1 bq2 : Nat → BqOutcome) :
    statePart (run_poc n bq1 err raws) = statePart (run_poc n bq2 err raws) :=
  runLoop_state_independent n err bq1 bq2 raws [] 0 initResult initResult rfl rfl

/-! ### Claim C7 -/

/-- Counterexample to C7 as stated: a completed run of 5 records with
batch size 2 reports the per-batch count 2 but nowhere reports the
run-level total of 5 records processed (nor any other run-level
counter). -/
theorem run_reports_no_totals_cex :
    (run_poc 2 okBq noErr fiveRaws).map (fun res => reportsCount res.log 5) =
      Except.ok false ∧
    (run_poc 2 okBq noErr fiveRaws).map (fun res => reportsCount res.log 2) =
      Except.ok true ∧
    fiveRaws.length = 5 :=
  ⟨rfl, rfl, rfl⟩

/-- C7 as amended: a completed run reports per-batch counts only — every
number appearing in its user-visible output is the size of one of the
dispatched batches (logged when it is archived or upserted); no run-level
total of records processed nor per-failure-kind counters appear. -/
theorem run_counts_are_batch_sizes (n : Nat) (bq : Nat → BqOutcome)
    (err : EnrichedFinding → Bool) (raws : List RawFinding) (res : RunResult)
    (h : run_poc n bq err raws = Except.ok res) (k : Nat)
    (hk : reportsCount res.log k = true) :
    ∃ b ∈ res.alloyBatches, b.length = k := by
  rcases runLoop_log_counts n bq err raws [] 0 initResult res h k hk with hinit | hb
  · simp [initResult, reportsCount, eventNum] at hinit
  · exact hb

/-- Witness for the amended C7: in the five-record run the reported
count 2 is the size of a dispatched batch. -/
theorem run_counts_are_batch_sizes_witness :
    ∃ res, run_poc 2 okBq noErr fiveRaws = Except.ok res ∧
      reportsCount res.log 2 = true ∧
      ∃ b ∈ res.alloyBatches, b.length = 2 :=
  ⟨_, rfl, rfl, run_counts_are_batch_sizes 2 okBq noErr fiveRaws _ rfl 2 rfl⟩

/-- Witness for C10 at `asset-12`. -/
theorem enrich_range_finite_witness :
    parseAssetNum (mkRaw "asset-12" "CVE-C").asset_id = some 12 ∧
    (∃ e, enrich_record (mkRaw "asset-12" "CVE-C") = some e ∧
      serviceNames[12 % 10]? = some e.stable_identity ∧
      (e.team_owner = "Checkout Team" ↔ 12 % 2 = 0) ∧
      (e.team_owner = "Checkout Team" ∨ e.team_owner = "Platform Team") ∧
      (e.region = "us-east1" ↔ 12 < 50) ∧
      (e.region = "us-east1" ∨ e.region = "europe-west2")) :=
  ⟨rfl, enrich_range_finite (mkRaw "asset-12" "CVE-C") 12 rfl⟩

end Minicon
